import Mathlib

/-!
Shallow embedding of the hotel-booking planner's core state logic.

The source is a React/Redux application.  The parts with real semantics are:
* `buildTripDates` in `App.tsx` — derives the list of ISO trip dates from
  the configured start date and day count using JavaScript `Date` arithmetic
  (`new Date(startDate)`, `setDate(getDate() + index)`, `toISOString`);
* the `dailySelections` reducer (`updateHotel`, `updateMeal`, `clearMeals`,
  `syncWithDates`) — a string-keyed record of per-date selections;
* the `tripConfig` reducer together with the `App.tsx` event handlers
  (`handleBoardChange`, `handleMealChange`, the days input `onChange`);
* the pricing derivation (`dailyBreakdown`, `grandTotal`).

Modelling conventions:
* JavaScript `Date` values are modelled at UTC (the string supplied by the
  date input parses as UTC midnight, and local-time accessors coincide with
  UTC ones for a UTC runtime), so a `Date` holding a midnight instant is a
  calendar triple `CalDate`.
* `new Date(string)` is modelled on the `YYYY-MM-DD` strings produced by the
  `<input type="date">` control (the only producer of `startDate` in the
  app); other `Date` input formats are outside the model.
* `undefined` optional ids are `Option Int`; JavaScript truthiness of a
  number-or-undefined value is the `truthy` predicate (`0` is falsy).
* JavaScript objects used as string-keyed records are association lists
  with JavaScript assignment semantics (`objGet` / `objSet`).
* Prices are rationals (ℚ), ids are integers.
-/

/-! ### Gregorian calendar arithmetic (JavaScript `Date` at UTC) -/

/-- Gregorian leap-year rule, as implemented by JavaScript `Date`. -/
def isLeap (y : Nat) : Bool :=
  (y % 4 == 0 && y % 100 != 0) || y % 400 == 0

/-- Number of days in month `m` (1-based) of year `y`. -/
def daysInMonth (y m : Nat) : Nat :=
  if m = 2 then (if isLeap y then 29 else 28)
  else if m = 4 ∨ m = 6 ∨ m = 9 ∨ m = 11 then 30
  else 31

theorem daysInMonth_ge (y m : Nat) : 28 ≤ daysInMonth y m := by
  unfold daysInMonth
  split
  · split <;> omega
  · split <;> omega

theorem daysInMonth_le (y m : Nat) : daysInMonth y m ≤ 31 := by
  unfold daysInMonth
  split
  · split <;> omega
  · split <;> omega

/-- A calendar date (year, 1-based month, 1-based day). -/
structure CalDate where
  year : Nat
  month : Nat
  day : Nat
deriving DecidableEq, Repr

/-- A `CalDate` whose components are in range. -/
def validDate (dt : CalDate) : Prop :=
  1 ≤ dt.month ∧ dt.month ≤ 12 ∧ 1 ≤ dt.day ∧ dt.day ≤ daysInMonth dt.year dt.month

instance (dt : CalDate) : Decidable (validDate dt) := by
  unfold validDate; infer_instance

/-- Fuel-indexed month-overflow normalization (each step consumes at least
28 days of `v`, so any fuel of at least `v` gives the fixpoint). -/
def rollDateAux : Nat → Nat → Nat → Nat → CalDate
  | 0, y, m, v => ⟨y, m, v⟩
  | fuel + 1, y, m, v =>
    if daysInMonth y m < v then
      if m < 12 then rollDateAux fuel y (m + 1) (v - daysInMonth y m)
      else rollDateAux fuel (y + 1) 1 (v - daysInMonth y m)
    else ⟨y, m, v⟩

/-- JavaScript `setDate(v)` rollover (for `v ≥ 1`): placing day-of-month `v`
in month `m` of year `y` and normalizing overflow into following months.
This is the computation performed by
`nextDate.setDate(parsed.getDate() + index)` in `buildTripDates`. -/
def rollDate (y m v : Nat) : CalDate := rollDateAux v y m v

theorem rollDateAux_congr :
    ∀ f1 f2 y m v, v ≤ f1 → v ≤ f2 →
      rollDateAux f1 y m v = rollDateAux f2 y m v := by
  intro f1
  induction f1 with
  | zero =>
    intro f2 y m v h1 h2
    have hv : v = 0 := by omega
    subst hv
    cases f2 with
    | zero => rfl
    | succ k =>
      show ⟨y, m, 0⟩ = rollDateAux (k + 1) y m 0
      unfold rollDateAux
      rw [if_neg (by omega)]
  | succ f ih =>
    intro f2 y m v h1 h2
    cases f2 with
    | zero =>
      have hv : v = 0 := by omega
      subst hv
      show rollDateAux (f + 1) y m 0 = ⟨y, m, 0⟩
      unfold rollDateAux
      rw [if_neg (by omega)]
    | succ g =>
      show rollDateAux (f + 1) y m v = rollDateAux (g + 1) y m v
      unfold rollDateAux
      have hdim := daysInMonth_ge y m
      by_cases hlt : daysInMonth y m < v
      · rw [if_pos hlt, if_pos hlt]
        by_cases hm' : m < 12
        · rw [if_pos hm', if_pos hm']
          exact ih g y (m + 1) (v - daysInMonth y m) (by omega) (by omega)
        · rw [if_neg hm', if_neg hm']
          exact ih g (y + 1) 1 (v - daysInMonth y m) (by omega) (by omega)
      · rw [if_neg hlt, if_neg hlt]

/-- The defining equation of `rollDate`, fuel eliminated. -/
theorem rollDate_eq (y m v : Nat) :
    rollDate y m v =
      if daysInMonth y m < v then
        (if m < 12 then rollDate y (m + 1) (v - daysInMonth y m)
         else rollDate (y + 1) 1 (v - daysInMonth y m))
      else ⟨y, m, v⟩ := by
  have hdim := daysInMonth_ge y m
  cases v with
  | zero =>
    unfold rollDate rollDateAux
    rw [if_neg (by omega)]
  | succ k =>
    show rollDateAux (k + 1) y m (k + 1) = _
    unfold rollDateAux
    by_cases hlt : daysInMonth y m < k + 1
    · rw [if_pos hlt, if_pos hlt]
      by_cases hm' : m < 12
      · rw [if_pos hm', if_pos hm']
        exact rollDateAux_congr k (k + 1 - daysInMonth y m) y (m + 1)
          (k + 1 - daysInMonth y m) (by omega) (by omega)
      · rw [if_neg hm', if_neg hm']
        exact rollDateAux_congr k (k + 1 - daysInMonth y m) (y + 1) 1
          (k + 1 - daysInMonth y m) (by omega) (by omega)
    · rw [if_neg hlt, if_neg hlt]

/-- The next calendar day. -/
def succDate (dt : CalDate) : CalDate :=
  if dt.day < daysInMonth dt.year dt.month then ⟨dt.year, dt.month, dt.day + 1⟩
  else if dt.month < 12 then ⟨dt.year, dt.month + 1, 1⟩
  else ⟨dt.year + 1, 1, 1⟩

/-- `startDate` plus `n` calendar days. -/
def addDays (dt : CalDate) : Nat → CalDate
  | 0 => dt
  | n + 1 => succDate (addDays dt n)

/-- Strict chronological order on calendar dates. -/
def dateLt (a b : CalDate) : Prop :=
  a.year < b.year ∨
    (a.year = b.year ∧
      (a.month < b.month ∨ (a.month = b.month ∧ a.day < b.day)))

instance (a b : CalDate) : Decidable (dateLt a b) := by
  unfold dateLt; infer_instance

theorem dateLt_trans {a b c : CalDate} (h1 : dateLt a b) (h2 : dateLt b c) :
    dateLt a c := by
  unfold dateLt at *
  omega

theorem dateLt_ne {a b : CalDate} (h : dateLt a b) : a ≠ b := by
  intro hab
  subst hab
  unfold dateLt at h
  omega

theorem dateLt_succDate (dt : CalDate) : dateLt dt (succDate dt) := by
  unfold succDate dateLt
  split
  · dsimp only
    omega
  · split
    · dsimp only
      omega
    · dsimp only
      omega

theorem succDate_valid {dt : CalDate} (h : validDate dt) :
    validDate (succDate dt) := by
  unfold validDate at *
  unfold succDate
  split
  · dsimp only
    omega
  · split
    · dsimp only
      have := daysInMonth_ge dt.year (dt.month + 1)
      omega
    · dsimp only
      have := daysInMonth_ge (dt.year + 1) 1
      omega

theorem addDays_valid {dt : CalDate} (h : validDate dt) (n : Nat) :
    validDate (addDays dt n) := by
  induction n with
  | zero => exact h
  | succ k ih => exact succDate_valid ih

theorem succDate_year_le (dt : CalDate) : dt.year ≤ (succDate dt).year := by
  unfold succDate
  split
  · simp
  · split <;> simp

theorem addDays_year_mono (dt : CalDate) {i j : Nat} (h : i ≤ j) :
    (addDays dt i).year ≤ (addDays dt j).year := by
  induction j with
  | zero =>
    have : i = 0 := by omega
    subst this; exact Nat.le_refl _
  | succ k ih =>
    rcases Nat.lt_or_ge i (k + 1) with hlt | hge
    · have h1 := ih (by omega)
      have h2 := succDate_year_le (addDays dt k)
      exact Nat.le_trans h1 h2
    · have : i = k + 1 := by omega
      subst this; exact Nat.le_refl _

theorem addDays_add (dt : CalDate) (a b : Nat) :
    addDays dt (a + b) = addDays (addDays dt a) b := by
  induction b with
  | zero => rfl
  | succ k ih =>
    show succDate (addDays dt (a + k)) = succDate (addDays (addDays dt a) k)
    rw [ih]

theorem dateLt_addDays_pos (dt : CalDate) (k : Nat) :
    dateLt dt (addDays dt (k + 1)) := by
  induction k with
  | zero => exact dateLt_succDate dt
  | succ n ih =>
    have h2 : dateLt (addDays dt (n + 1)) (succDate (addDays dt (n + 1))) :=
      dateLt_succDate _
    exact dateLt_trans ih h2

theorem dateLt_addDays_of_lt (dt : CalDate) {i j : Nat} (h : i < j) :
    dateLt (addDays dt i) (addDays dt j) := by
  have hj : j = i + ((j - i - 1) + 1) := by omega
  rw [hj, addDays_add]
  exact dateLt_addDays_pos _ _

/-- The month rollover agrees with iterated day succession:
`rollDate y m (d + i)` is `⟨y, m, d⟩` plus `i` days, provided the starting
triple is in range.  This is the heart of the correctness of
`setDate(getDate() + index)`. -/
theorem rollDate_succ :
    ∀ v y m, 1 ≤ m → m ≤ 12 → 1 ≤ v →
      rollDate y m (v + 1) = succDate (rollDate y m v) := by
  intro v
  induction v using Nat.strong_induction_on with
  | _ v ih =>
    intro y m hm hm12 hv
    have hdim := daysInMonth_ge y m
    rcases Nat.lt_trichotomy v (daysInMonth y m) with hlt | heq | hgt
    · rw [rollDate_eq, if_neg (by omega), rollDate_eq, if_neg (by omega)]
      unfold succDate
      dsimp only
      rw [if_pos hlt]
    · have hnlt : ¬ daysInMonth y m < v := by omega
      rw [show rollDate y m v = ⟨y, m, v⟩ by rw [rollDate_eq, if_neg hnlt]]
      have hsucc : succDate ⟨y, m, v⟩ =
          if m < 12 then ⟨y, m + 1, 1⟩ else ⟨y + 1, 1, 1⟩ := by
        unfold succDate
        dsimp only
        rw [if_neg (by omega)]
      rw [hsucc, rollDate_eq, if_pos (by omega)]
      have hone : v + 1 - daysInMonth y m = 1 := by omega
      rw [hone]
      by_cases hm' : m < 12
      · rw [if_pos hm', if_pos hm', rollDate_eq,
          if_neg (by have := daysInMonth_ge y (m + 1); omega)]
      · rw [if_neg hm', if_neg hm', rollDate_eq,
          if_neg (by have := daysInMonth_ge (y + 1) 1; omega)]
    · rw [rollDate_eq, if_pos (by omega)]
      conv => rhs; rw [rollDate_eq, if_pos (by omega)]
      have hsub : v + 1 - daysInMonth y m = (v - daysInMonth y m) + 1 := by omega
      by_cases hm' : m < 12
      · rw [if_pos hm', if_pos hm', hsub]
        exact ih (v - daysInMonth y m) (by omega) y (m + 1) (by omega) (by omega)
          (by omega)
      · rw [if_neg hm', if_neg hm', hsub]
        exact ih (v - daysInMonth y m) (by omega) (y + 1) 1 (by omega) (by omega)
          (by omega)

theorem rollDate_eq_addDays (y m d : Nat) (hm : 1 ≤ m) (hm12 : m ≤ 12)
    (hd : 1 ≤ d) (hdim : d ≤ daysInMonth y m) (i : Nat) :
    rollDate y m (d + i) = addDays ⟨y, m, d⟩ i := by
  induction i with
  | zero =>
    rw [rollDate_eq, if_neg (by omega)]
    rfl
  | succ k ih =>
    have : d + (k + 1) = (d + k) + 1 := by omega
    rw [this, rollDate_succ (d + k) y m hm hm12 (by omega), ih]
    rfl

/-! ### ISO serialization and parsing -/

/-- The decimal digit character for `n % 10`-style values. -/
def digitChar (n : Nat) : Char := Char.ofNat (48 + n)

/-- Two-digit zero-padded decimal (months and days in `toISOString`). -/
def pad2 (n : Nat) : List Char := [digitChar (n / 10 % 10), digitChar (n % 10)]

/-- Four-digit zero-padded decimal (years 0–9999 in `toISOString`). -/
def pad4 (n : Nat) : List Char :=
  [digitChar (n / 1000 % 10), digitChar (n / 100 % 10),
   digitChar (n / 10 % 10), digitChar (n % 10)]

/-- Six-digit zero-padded decimal (expanded years in `toISOString`). -/
def pad6 (n : Nat) : List Char :=
  [digitChar (n / 100000 % 10), digitChar (n / 10000 % 10),
   digitChar (n / 1000 % 10), digitChar (n / 100 % 10),
   digitChar (n / 10 % 10), digitChar (n % 10)]

/-- `date.toISOString().split('T')[0]`: the date part of the ECMAScript ISO
serialization.  Years 0–9999 print as `YYYY`; larger years use ECMAScript's
expanded form, a sign followed by six digits. -/
def isoDateString (dt : CalDate) : String :=
  ⟨(if dt.year ≤ 9999 then pad4 dt.year else '+' :: pad6 dt.year) ++
    '-' :: pad2 dt.month ++ '-' :: pad2 dt.day⟩

/-- Whether a character is a decimal digit (used by the date parser). -/
def isDigitChar (c : Char) : Bool := 48 ≤ c.toNat && c.toNat ≤ 57

/-- Numeric value of a digit character. -/
def digitVal (c : Char) : Nat := c.toNat - 48

/-- `new Date(startDate)` for the `YYYY-MM-DD` strings produced by the
`<input type="date">` control (the only producer of `startDate` in the app):
`some` of the calendar date when the string is a well-formed ISO date naming
an existing calendar day, `none` (JavaScript `Invalid Date`) otherwise.
Other `Date` input formats never reach `buildTripDates` and are outside the
model. -/
def parseISODate (s : String) : Option CalDate :=
  match s.data with
  | [y1, y2, y3, y4, h1, m1, m2, h2, d1, d2] =>
    if h1 = '-' ∧ h2 = '-' ∧
        (isDigitChar y1 && isDigitChar y2 && isDigitChar y3 && isDigitChar y4 &&
         isDigitChar m1 && isDigitChar m2 && isDigitChar d1 && isDigitChar d2) = true then
      let y := ((digitVal y1 * 10 + digitVal y2) * 10 + digitVal y3) * 10 + digitVal y4
      let mo := digitVal m1 * 10 + digitVal m2
      let dy := digitVal d1 * 10 + digitVal d2
      if 1 ≤ mo ∧ mo ≤ 12 ∧ 1 ≤ dy ∧ dy ≤ daysInMonth y mo then
        some ⟨y, mo, dy⟩
      else none
    else none
  | _ => none

/-- `buildTripDates` from `App.tsx`:
guard `!startDate || days < 1`, parse the start date (empty on
`Invalid Date`), then map each index `i < days` to
`new Date(parsed)` + `setDate(getDate() + i)` + `toISOString().split('T')[0]`.
`days` is an integer here (the trip-configuration data model types it as an
integer). -/
def buildTripDates (startDate : String) (days : Int) : List String :=
  if startDate = "" ∨ days < 1 then []
  else
    match parseISODate startDate with
    | none => []
    | some dt =>
      (List.range days.toNat).map
        (fun i => isoDateString (rollDate dt.year dt.month (dt.day + i)))

theorem parseISODate_valid {s : String} {dt : CalDate}
    (h : parseISODate s = some dt) : validDate dt ∧ dt.year ≤ 9999 := by
  unfold parseISODate at h
  split at h
  · next y1 y2 y3 y4 h1 m1 m2 h2 d1 d2 _ =>
    split at h
    · next hdig =>
      dsimp only at h
      split at h
      · next hrange =>
        injection h with h
        subst h
        obtain ⟨-, -, hdigits⟩ := hdig
        simp only [Bool.and_eq_true, isDigitChar, decide_eq_true_eq,
          Bool.and_eq_true] at hdigits
        unfold validDate
        dsimp only
        refine ⟨hrange, ?_⟩
        unfold digitVal
        omega
      · exact absurd h (by simp)
    · exact absurd h (by simp)
  · exact absurd h (by simp)

theorem parseISODate_empty : parseISODate "" = none := rfl

theorem digitChar_inj :
    ∀ a, a < 10 → ∀ b, b < 10 → digitChar a = digitChar b → a = b := by
  decide

theorem mod10_lt (n : Nat) : n % 10 < 10 := Nat.mod_lt n (by norm_num)

theorem isoDateString_inj {a b : CalDate} (ha : validDate a) (hb : validDate b)
    (hya : a.year ≤ 9999) (hyb : b.year ≤ 9999)
    (h : isoDateString a = isoDateString b) : a = b := by
  obtain ⟨ya, ma, da⟩ := a
  obtain ⟨yb, mb, db⟩ := b
  obtain ⟨ham1, ham2, had1, had2⟩ := ha
  obtain ⟨hbm1, hbm2, hbd1, hbd2⟩ := hb
  have hda := daysInMonth_le ya ma
  have hdb := daysInMonth_le yb mb
  dsimp only at *
  unfold isoDateString at h
  dsimp only at h
  rw [if_pos hya, if_pos hyb] at h
  replace h : _ = _ := congrArg String.data h
  simp only [pad4, pad2, List.cons_append, List.nil_append,
    List.cons.injEq, and_true, true_and] at h
  obtain ⟨e1, e2, e3, e4, e5, e6, e7, e8⟩ := h
  have f1 := digitChar_inj _ (mod10_lt _) _ (mod10_lt _) e1
  have f2 := digitChar_inj _ (mod10_lt _) _ (mod10_lt _) e2
  have f3 := digitChar_inj _ (mod10_lt _) _ (mod10_lt _) e3
  have f4 := digitChar_inj _ (mod10_lt _) _ (mod10_lt _) e4
  have f5 := digitChar_inj _ (mod10_lt _) _ (mod10_lt _) e5
  have f6 := digitChar_inj _ (mod10_lt _) _ (mod10_lt _) e6
  have f7 := digitChar_inj _ (mod10_lt _) _ (mod10_lt _) e7
  have f8 := digitChar_inj _ (mod10_lt _) _ (mod10_lt _) e8
  simp only [CalDate.mk.injEq]
  omega

theorem mapRange_congr {α : Type} (n : Nat) (f g : Nat → α)
    (h : ∀ i, i < n → f i = g i) :
    (List.range n).map f = (List.range n).map g := by
  induction n with
  | zero => rfl
  | succ k ih =>
    rw [List.range_succ, List.map_append, List.map_append,
      ih (fun i hi => h i (by omega))]
    simp [h k (by omega)]

/-- On valid inputs, `buildTripDates` is the serialization of the iterated
calendar successor of the parsed start date. -/
theorem buildTripDates_eq_map {startDate : String} {dt : CalDate} (days : Int)
    (hp : parseISODate startDate = some dt) (hdays : 1 ≤ days) :
    buildTripDates startDate days =
      (List.range days.toNat).map (fun i => isoDateString (addDays dt i)) := by
  have hne : startDate ≠ "" := by
    intro he
    rw [he, parseISODate_empty] at hp
    exact absurd hp (by simp)
  obtain ⟨⟨hm1, hm2, hd1, hd2⟩, hy⟩ := parseISODate_valid hp
  unfold buildTripDates
  rw [if_neg (by push_neg; exact ⟨hne, by omega⟩), hp]
  apply mapRange_congr
  intro i hi
  rw [rollDate_eq_addDays dt.year dt.month dt.day hm1 hm2 hd1 hd2 i]

/-! ### Daily selections store (`dailySelectionsSlice`) -/

/-- `DailySelection` from `dailySelectionsSlice`: `{ hotelId?, lunchId?, dinnerId? }`. -/
structure DailySelection where
  hotelId : Option Int
  lunchId : Option Int
  dinnerId : Option Int
deriving DecidableEq, Repr

/-- The implicit empty record `{}`. -/
def emptySelection : DailySelection := ⟨none, none, none⟩

/-- `DailySelectionsState = Record<string, DailySelection>`: a JavaScript
object used as a string-keyed map, modelled as an insertion-ordered
association list with unique keys in the reachable states. -/
def DailySelectionsState : Type := List (String × DailySelection)

instance : DecidableEq DailySelectionsState := by
  unfold DailySelectionsState; infer_instance

/-- Property read `state[k]` (`undefined` = `none`). -/
def objGet : DailySelectionsState → String → Option DailySelection
  | [], _ => none
  | (k, v) :: rest, k' => if k = k' then some v else objGet rest k'

/-- Property write `state[k] = v`: overwrites in place if the key exists,
otherwise appends (JavaScript object insertion order). -/
def objSet : DailySelectionsState → String → DailySelection → DailySelectionsState
  | [], k, v => [(k, v)]
  | (k', v') :: rest, k, v =>
    if k' = k then (k, v) :: rest else (k', v') :: objSet rest k v

/-- JavaScript truthiness of a `number | undefined` value:
`undefined` and `0` are falsy. -/
def truthy (o : Option Int) : Bool :=
  match o with
  | none => false
  | some n => n != 0

/-- The two meal fields of a `DailySelection`. -/
inductive MealField
  | lunchId
  | dinnerId
deriving DecidableEq, Repr

def setField (r : DailySelection) (f : MealField) (v : Option Int) : DailySelection :=
  match f with
  | .lunchId => { r with lunchId := v }
  | .dinnerId => { r with dinnerId := v }

def getField (r : DailySelection) (f : MealField) : Option Int :=
  match f with
  | .lunchId => r.lunchId
  | .dinnerId => r.dinnerId

/-- The `updateHotel` reducer: get-or-create the record for `date`, then
`state[date].hotelId = hotelId` (no truthiness check). -/
def updateHotel (s : DailySelectionsState) (date : String) (hotelId : Option Int) :
    DailySelectionsState :=
  let record := (objGet s date).getD emptySelection
  objSet s date { record with hotelId := hotelId }

/-- The `updateMeal` reducer: get-or-create the record for `date`, then
`if (!mealId) delete state[date][field] else state[date][field] = mealId`.
The branch is on JavaScript truthiness of `mealId`, so `mealId = 0` takes the
delete branch. -/
def updateMeal (s : DailySelectionsState) (date : String) (field : MealField)
    (mealId : Option Int) : DailySelectionsState :=
  let record := (objGet s date).getD emptySelection
  if truthy mealId then objSet s date (setField record field mealId)
  else objSet s date (setField record field none)

/-- The record produced for one date by the `clearMeals` reducer body
`state[date] = hotelId ? { hotelId } : {}`: meals dropped, the hotel id kept
only when truthy. -/
def clearRec (r : DailySelection) : DailySelection :=
  if truthy r.hotelId then ⟨r.hotelId, none, none⟩ else emptySelection

/-- One `forEach` step of the `clearMeals` reducer: skip dates without a
record, otherwise replace the record by `clearRec`. -/
def clearStep (acc : DailySelectionsState) (date : String) : DailySelectionsState :=
  match objGet acc date with
  | none => acc
  | some r => objSet acc date (clearRec r)

/-- The `clearMeals` reducer: `dates.forEach(...)` over the state. -/
def clearMeals (s : DailySelectionsState) (dates : List String) : DailySelectionsState :=
  dates.foldl clearStep s

/-- One `forEach` step of the `syncWithDates` reducer:
`next[date] = state[date] ?? {}` (reading from the incoming state `s`). -/
def syncStep (s : DailySelectionsState) (next : DailySelectionsState)
    (date : String) : DailySelectionsState :=
  objSet next date ((objGet s date).getD emptySelection)

/-- The `syncWithDates` reducer: build a fresh object keyed by `tripDates`,
carrying over existing records and defaulting missing ones to `{}`. -/
def syncWithDates (s : DailySelectionsState) (tripDates : List String) :
    DailySelectionsState :=
  tripDates.foldl (syncStep s) []

theorem objGet_objSet (s : DailySelectionsState) (k : String) (v : DailySelection)
    (k' : String) :
    objGet (objSet s k v) k' = if k = k' then some v else objGet s k' := by
  induction s with
  | nil => simp [objSet, objGet]
  | cons p rest ih =>
    obtain ⟨pk, pv⟩ := p
    by_cases hpk : pk = k
    · subst hpk
      by_cases hk' : pk = k'
      · simp [objSet, objGet, hk']
      · simp [objSet, objGet, hk']
    · by_cases hk' : pk = k'
      · subst hk'
        have hkp : ¬ k = pk := fun h => hpk h.symm
        simp [objSet, objGet, hpk, hkp]
      · simp [objSet, objGet, hpk, hk', ih]

theorem objGet_syncWithDates_aux (s : DailySelectionsState) (ds : List String)
    (acc : DailySelectionsState) (d : String) :
    objGet (ds.foldl (syncStep s) acc) d =
      if d ∈ ds then some ((objGet s d).getD emptySelection) else objGet acc d := by
  induction ds generalizing acc with
  | nil => simp
  | cons t ts ih =>
    rw [List.foldl_cons, ih]
    by_cases hts : d ∈ ts
    · simp [hts, List.mem_cons]
    · by_cases hdt : d = t
      · subst hdt
        simp only [hts, if_false, List.mem_cons, true_or, if_true, syncStep,
          objGet_objSet, if_pos rfl]
      · have htd : ¬ t = d := fun h => hdt h.symm
        simp only [hts, if_false, List.mem_cons, hdt, false_or, syncStep,
          objGet_objSet, if_neg htd]

/-- Extensional behaviour of the `syncWithDates` reducer: the new mapping is
keyed exactly by `ds`; dates in `ds` keep their old record (default `{}`),
dates outside `ds` are absent. -/
theorem objGet_syncWithDates (s : DailySelectionsState) (ds : List String)
    (d : String) :
    objGet (syncWithDates s ds) d =
      if d ∈ ds then some ((objGet s d).getD emptySelection) else none := by
  unfold syncWithDates
  rw [objGet_syncWithDates_aux]
  split
  · rfl
  · rfl

theorem syncWithDates_foldl_congr (s1 s2 : DailySelectionsState)
    (ds : List String) (acc : DailySelectionsState)
    (h : ∀ d ∈ ds,
      (objGet s1 d).getD emptySelection = (objGet s2 d).getD emptySelection) :
    ds.foldl (syncStep s1) acc = ds.foldl (syncStep s2) acc := by
  induction ds generalizing acc with
  | nil => rfl
  | cons t ts ih =>
    rw [List.foldl_cons, List.foldl_cons]
    have ht := h t (by simp)
    rw [show syncStep s1 acc t = syncStep s2 acc t by unfold syncStep; rw [ht]]
    exact ih _ (fun d hd => h d (by simp [hd]))

theorem clearRec_idem (r : DailySelection) : clearRec (clearRec r) = clearRec r := by
  unfold clearRec
  by_cases h : truthy r.hotelId = true
  · rw [if_pos h]
    dsimp only
    rw [if_pos h]
  · rw [if_neg h]
    show (if truthy emptySelection.hotelId = true then _ else _) = _
    rw [if_neg (by simp [emptySelection, truthy])]

theorem objGet_clearStep (s : DailySelectionsState) (t d : String) :
    objGet (clearStep s t) d =
      if t = d then (objGet s t).map clearRec else objGet s d := by
  unfold clearStep
  cases hst : objGet s t with
  | none =>
    by_cases htd : t = d
    · subst htd
      rw [if_pos rfl]
      rw [hst]
      rfl
    · rw [if_neg htd]
  | some r =>
    rw [objGet_objSet]
    by_cases htd : t = d
    · rw [if_pos htd, if_pos htd]
      rfl
    · rw [if_neg htd, if_neg htd]

/-- Extensional behaviour of the `clearMeals` reducer: dates in `ds` that
have a record get it replaced by `clearRec`; everything else is untouched. -/
theorem objGet_clearMeals (s : DailySelectionsState) (ds : List String)
    (d : String) :
    objGet (clearMeals s ds) d =
      if d ∈ ds then (objGet s d).map clearRec else objGet s d := by
  unfold clearMeals
  induction ds generalizing s with
  | nil => simp
  | cons t ts ih =>
    rw [List.foldl_cons, ih (clearStep s t)]
    by_cases hts : d ∈ ts
    · rw [if_pos hts, if_pos (by simp [hts])]
      rw [objGet_clearStep]
      by_cases htd : t = d
      · subst htd
        rw [if_pos rfl]
        cases objGet s t <;> simp [clearRec_idem]
      · rw [if_neg htd]
    · by_cases htd : d = t
      · subst htd
        rw [if_neg hts, if_pos (by simp)]
        rw [objGet_clearStep, if_pos rfl]
      · rw [if_neg hts, if_neg (by simp [htd, hts]),
          objGet_clearStep, if_neg (fun h => htd h.symm)]

/-! ### Trip configuration (`tripConfigSlice`) and the `App.tsx` handlers -/

/-- The three board types of `data.ts`: `FB` FullBoard, `HB` HalfBoard,
`NB` NoBoard. -/
inductive BoardCode
  | FB
  | HB
  | NB
deriving DecidableEq, Repr

/-- `TripConfig` from `tripConfigSlice`.  `days` is a JavaScript number and
is modelled as a rational: the reducer stores whatever number reaches it. -/
structure TripConfig where
  citizenship : String
  startDate : String
  days : ℚ
  destination : String
  boardType : BoardCode
deriving DecidableEq, Repr

/-- The `updateBoardType` reducer. -/
def updateBoardType (c : TripConfig) (code : BoardCode) : TripConfig :=
  { c with boardType := code }

/-- JavaScript `x || d` on a numeric value (`none` models `NaN`): falls back
to `d` exactly when `x` is falsy, i.e. `NaN` or `0`. -/
def jsOrDefault (x : Option ℚ) (d : ℚ) : ℚ :=
  match x with
  | none => d
  | some q => if q = 0 then d else q

/-- The update performed when the days input changes:
`handleConfigChange('days', Number(event.target.value) || 1)` in `App.tsx`,
followed by the `updateConfig` reducer, which stores `Number(value)` for the
`days` key (the identity on the already-numeric payload).  The argument is
the result of `Number(event.target.value)`, with `none` modelling `NaN`. -/
def updateDaysFromInput (c : TripConfig) (value : Option ℚ) : TripConfig :=
  { c with days := jsOrDefault value 1 }

/-- `field === 'lunchId' ? 'dinnerId' : 'lunchId'`. -/
def otherField : MealField → MealField
  | .lunchId => .dinnerId
  | .dinnerId => .lunchId

/-- `handleMealChange` from `App.tsx`: no-op under NoBoard; otherwise
dispatch `updateMeal`, and additionally clear the other meal field when the
new `mealId` is truthy and the board type is HalfBoard. -/
def handleMealChange (boardType : BoardCode) (s : DailySelectionsState)
    (date : String) (field : MealField) (mealId : Option Int) :
    DailySelectionsState :=
  if boardType = .NB then s
  else
    let s1 := updateMeal s date field mealId
    if truthy mealId ∧ boardType = .HB then
      updateMeal s1 date (otherField field) none
    else s1

/-- `handleBoardChange` from `App.tsx`: no-op when the code equals the
current board type; otherwise dispatch `updateBoardType`, and dispatch
`clearMeals(tripDates)` when the new code is NoBoard. -/
def handleBoardChange (config : TripConfig) (sels : DailySelectionsState)
    (tripDates : List String) (code : BoardCode) :
    TripConfig × DailySelectionsState :=
  if code = config.boardType then (config, sels)
  else
    let newConfig := updateBoardType config code
    if code = .NB then (newConfig, clearMeals sels tripDates)
    else (newConfig, sels)

/-! ### Pricing (`dailyBreakdown` / `grandTotal` in `App.tsx`) -/

/-- A hotel or meal catalog entry from `data.ts`. -/
structure CatalogEntry where
  id : Int
  name : String
  price : ℚ
deriving DecidableEq, Repr

/-- `mealsByCountry[destination]`: lunch and dinner option lists. -/
structure MealOptions where
  lunch : List CatalogEntry
  dinner : List CatalogEntry
deriving DecidableEq, Repr

/-- `entries.find(item => item.id === sel)`: strict equality between the
numeric catalog id and a `number | undefined` selection (never true for
`undefined`). -/
def findById (entries : List CatalogEntry) (sel : Option Int) : Option CatalogEntry :=
  entries.find? (fun e => some e.id == sel)

/-- One row of `dailyBreakdown`. -/
structure DayBreakdown where
  date : String
  hotel : Option CatalogEntry
  lunch : Option CatalogEntry
  dinner : Option CatalogEntry
  subtotal : ℚ
deriving DecidableEq, Repr

/-- `x?.price ?? 0`. -/
def priceOf (o : Option CatalogEntry) : ℚ := (o.map CatalogEntry.price).getD 0

/-- `dailyBreakdown` from `App.tsx`: resolve each date's selection against
the destination's catalog (`availableHotels`, `mealOptions?.lunch/dinner`)
and sum the resolved prices, absent resolving to 0. -/
def dailyBreakdown (tripDates : List String) (sels : DailySelectionsState)
    (availableHotels : List CatalogEntry) (mealOptions : Option MealOptions) :
    List DayBreakdown :=
  tripDates.map (fun date =>
    let selection := (objGet sels date).getD emptySelection
    let hotel := findById availableHotels selection.hotelId
    let lunch := mealOptions.bind (fun m => findById m.lunch selection.lunchId)
    let dinner := mealOptions.bind (fun m => findById m.dinner selection.dinnerId)
    ⟨date, hotel, lunch, dinner, priceOf hotel + priceOf lunch + priceOf dinner⟩)

/-- `grandTotal = dailyBreakdown.reduce((acc, entry) => acc + entry.subtotal, 0)`. -/
def grandTotal (breakdown : List DayBreakdown) : ℚ :=
  breakdown.foldl (fun acc entry => acc + entry.subtotal) 0

theorem foldl_add_subtotal (l : List DayBreakdown) (a : ℚ) :
    l.foldl (fun acc entry => acc + entry.subtotal) a =
      a + (l.map DayBreakdown.subtotal).sum := by
  induction l generalizing a with
  | nil => simp
  | cons x xs ih => simp [ih, add_assoc]

theorem getField_setField_same (r : DailySelection) (f : MealField)
    (v : Option Int) : getField (setField r f v) f = v := by
  cases f <;> rfl

theorem getField_setField_other (r : DailySelection) (f : MealField)
    (v : Option Int) :
    getField (setField r f v) (otherField f) = getField r (otherField f) := by
  cases f <;> rfl

theorem objGet_updateMeal_self (s : DailySelectionsState) (d : String)
    (f : MealField) (m : Option Int) :
    objGet (updateMeal s d f m) d =
      some (setField ((objGet s d).getD emptySelection) f
        (if truthy m then m else none)) := by
  unfold updateMeal
  dsimp only
  by_cases hm : truthy m = true
  · rw [if_pos hm, if_pos hm, objGet_objSet, if_pos rfl]
  · rw [if_neg hm, if_neg hm, objGet_objSet, if_pos rfl]

theorem priceOf_findById_nonneg {entries : List CatalogEntry}
    (h : ∀ e ∈ entries, 0 ≤ e.price) (sel : Option Int) :
    0 ≤ priceOf (findById entries sel) := by
  unfold priceOf findById
  cases hf : entries.find? (fun e => some e.id == sel) with
  | none => simp
  | some e =>
    have hmem := List.mem_of_find?_eq_some hf
    simpa using h e hmem

theorem isoDateString_length {dt : CalDate} (hy : dt.year ≤ 9999) :
    (isoDateString dt).length = 10 := by
  unfold isoDateString
  rw [if_pos hy]
  rfl

/-! ### Claims -/

/-- C1 counterexample: the claim fails as universally stated.  With the
valid start date `9999-12-31` and `days = 2`, the second entry is
ECMAScript's expanded-year serialization `+010000-01-01` (sign plus six
year digits), not a `YYYY-MM-DD` (length-10) ISO date string. -/
theorem c1_counterexample :
    buildTripDates "9999-12-31" 2 = ["9999-12-31", "+010000-01-01"] ∧
    ¬ ∀ s ∈ buildTripDates "9999-12-31" 2, s.length = 10 := by
  constructor
  · decide
  · decide

/-- C1 (amended): for every start date that parses as a calendar date and
every `days ≥ 1` such that the derived range stays within years ≤ 9999
(beyond which ECMAScript serializes years in the expanded `+YYYYYY` form),
`buildTripDates` returns exactly `days` strings, the i-th being the start
date plus `i` calendar days serialized as a length-10 `YYYY-MM-DD` ISO date
(hence correct across month and year boundaries), duplicate-free, with the
underlying dates strictly increasing and contiguous by construction of
`addDays`.  Time-of-day and timezone artifacts do not arise in the model
(dates are normalized to UTC calendar triples). -/
theorem c1_buildTripDates_correct (startDate : String) (days : Int)
    (dt : CalDate) (hp : parseISODate startDate = some dt) (hdays : 1 ≤ days)
    (hy : (addDays dt (days.toNat - 1)).year ≤ 9999) :
    buildTripDates startDate days =
      (List.range days.toNat).map (fun i => isoDateString (addDays dt i)) ∧
    (buildTripDates startDate days).length = days.toNat ∧
    (buildTripDates startDate days).Nodup ∧
    (∀ s ∈ buildTripDates startDate days, s.length = 10) ∧
    (∀ i j : Nat, i < j → j < days.toNat →
      dateLt (addDays dt i) (addDays dt j)) := by
  have hmap := buildTripDates_eq_map days hp hdays
  obtain ⟨hvalid, hy0⟩ := parseISODate_valid hp
  have hyi : ∀ i, i < days.toNat → (addDays dt i).year ≤ 9999 := by
    intro i hi
    exact le_trans (addDays_year_mono dt (by omega)) hy
  refine ⟨hmap, ?_, ?_, ?_, ?_⟩
  · rw [hmap]
    simp
  · rw [hmap]
    apply List.Nodup.map_on
    · intro i hi j hj hfij
      have heq := isoDateString_inj (addDays_valid hvalid i)
        (addDays_valid hvalid j) (hyi i (List.mem_range.mp hi))
        (hyi j (List.mem_range.mp hj)) hfij
      rcases Nat.lt_trichotomy i j with hlt | hij | hgt
      · exact absurd heq (dateLt_ne (dateLt_addDays_of_lt dt hlt))
      · exact hij
      · exact absurd heq.symm (dateLt_ne (dateLt_addDays_of_lt dt hgt))
    · exact List.nodup_range _
  · intro s hs
    rw [hmap] at hs
    obtain ⟨i, hi, rfl⟩ := List.mem_map.mp hs
    exact isoDateString_length (hyi i (List.mem_range.mp hi))
  · intro i j hij hj
    exact dateLt_addDays_of_lt dt hij

/-- Witness for C1 at the spec's month-boundary scenario:
startDate `2024-01-30`, `days = 3`. -/
theorem c1_witness :
    parseISODate "2024-01-30" = some ⟨2024, 1, 30⟩ ∧
    (1 : Int) ≤ 3 ∧
    (addDays ⟨2024, 1, 30⟩ ((3 : Int).toNat - 1)).year ≤ 9999 ∧
    (buildTripDates "2024-01-30" 3 =
      (List.range (3 : Int).toNat).map
        (fun i => isoDateString (addDays ⟨2024, 1, 30⟩ i)) ∧
    (buildTripDates "2024-01-30" 3).length = (3 : Int).toNat ∧
    (buildTripDates "2024-01-30" 3).Nodup ∧
    (∀ s ∈ buildTripDates "2024-01-30" 3, s.length = 10) ∧
    (∀ i j : Nat, i < j → j < (3 : Int).toNat →
      dateLt (addDays ⟨2024, 1, 30⟩ i) (addDays ⟨2024, 1, 30⟩ j))) :=
  ⟨by decide, by decide, by decide,
    c1_buildTripDates_correct "2024-01-30" 3 ⟨2024, 1, 30⟩ (by decide)
      (by decide) (by decide)⟩

/-- C8: for every empty or unparseable start date, and for every
`days < 1`, `buildTripDates` returns the empty sequence (and, being a total
function, raises no error). -/
theorem c8_buildTripDates_invalid (startDate : String) (days : Int)
    (h : startDate = "" ∨ parseISODate startDate = none ∨ days < 1) :
    buildTripDates startDate days = [] := by
  unfold buildTripDates
  rcases h with h | h | h
  · rw [if_pos (Or.inl h)]
  · by_cases hg : startDate = "" ∨ days < 1
    · rw [if_pos hg]
    · rw [if_neg hg, h]
  · rw [if_pos (Or.inr h)]

/-- Witness for C8: an unparseable date (month 13) with `days = 3`, and a
valid date with `days = 0`. -/
theorem c8_witness :
    (("2024-13-05" = "" ∨ parseISODate "2024-13-05" = none ∨ (3 : Int) < 1) ∧
      buildTripDates "2024-13-05" 3 = []) ∧
    (("2024-03-01" = "" ∨ parseISODate "2024-03-01" = none ∨ (0 : Int) < 1) ∧
      buildTripDates "2024-03-01" 0 = []) :=
  ⟨⟨by decide, c8_buildTripDates_invalid "2024-13-05" 3 (by decide)⟩,
   ⟨by decide, c8_buildTripDates_invalid "2024-03-01" 0 (by decide)⟩⟩

/-- C2: `syncWithDates` replaces the mapping with one keyed exactly by the
new date sequence: a date in both the old and new key sets keeps its
existing record unchanged, a date only in the new sequence gets an empty
record, and a date only in the old key set is dropped. -/
theorem c2_syncWithDates_rekey (s : DailySelectionsState) (ds : List String)
    (d : String) :
    (∀ r, d ∈ ds → objGet s d = some r →
      objGet (syncWithDates s ds) d = some r) ∧
    (d ∈ ds → objGet s d = none →
      objGet (syncWithDates s ds) d = some emptySelection) ∧
    (d ∉ ds → objGet (syncWithDates s ds) d = none) := by
  refine ⟨?_, ?_, ?_⟩
  · intro r hd hr
    rw [objGet_syncWithDates, if_pos hd, hr]
    rfl
  · intro hd hr
    rw [objGet_syncWithDates, if_pos hd, hr]
    rfl
  · intro hd
    rw [objGet_syncWithDates, if_neg hd]

/-- Witness for C2: resyncing `{d1, d2}` to `[d2, d3]` keeps `d2`'s record,
initializes `d3` empty, and drops `d1`. -/
theorem c2_witness :
    objGet (syncWithDates
        [("d1", ⟨some 1, none, none⟩), ("d2", ⟨none, none, some 3⟩)]
        ["d2", "d3"]) "d2" = some ⟨none, none, some 3⟩ ∧
    objGet (syncWithDates
        [("d1", ⟨some 1, none, none⟩), ("d2", ⟨none, none, some 3⟩)]
        ["d2", "d3"]) "d3" = some emptySelection ∧
    objGet (syncWithDates
        [("d1", ⟨some 1, none, none⟩), ("d2", ⟨none, none, some 3⟩)]
        ["d2", "d3"]) "d1" = none :=
  ⟨(c2_syncWithDates_rekey _ _ "d2").1 ⟨none, none, some 3⟩ (by decide)
      (by decide),
   (c2_syncWithDates_rekey _ _ "d3").2.1 (by decide) (by decide),
   (c2_syncWithDates_rekey _ _ "d1").2.2 (by decide)⟩

/-- C9: applying `syncWithDates` twice in a row with the same date sequence
yields the same state as applying it once. -/
theorem c9_syncWithDates_idem (s : DailySelectionsState) (ds : List String) :
    syncWithDates (syncWithDates s ds) ds = syncWithDates s ds := by
  have hcong := syncWithDates_foldl_congr (syncWithDates s ds) s ds []
    (fun d hd => by rw [objGet_syncWithDates, if_pos hd]; rfl)
  exact hcong

/-- C3 counterexample: the claim fails as stated.  A stored hotel id `0` is
falsy, so the NoBoard transition replaces the record by `{}` and drops the
hotel id instead of preserving it (`hotelId ? { hotelId } : {}` in
`clearMeals`). -/
theorem c3_counterexample :
    (handleBoardChange ⟨"", "2024-03-01", 3, "Italy", .FB⟩
        [("2024-03-01", ⟨some 0, some 1, none⟩)] ["2024-03-01"] .NB).2 =
      [("2024-03-01", ⟨none, none, none⟩)] ∧
    ¬ (handleBoardChange ⟨"", "2024-03-01", 3, "Italy", .FB⟩
        [("2024-03-01", ⟨some 0, some 1, none⟩)] ["2024-03-01"] .NB).2 =
      [("2024-03-01", ⟨some 0, none, none⟩)] := by
  constructor
  · decide
  · decide

/-- C3 (amended): selecting the board type already active is a no-op with no
clearing; switching to NoBoard from a different board type replaces every
current date's record by `clearRec`, which always clears lunch and dinner
and preserves the hotel id whenever that id is truthy (a stored hotel id
`0`, being falsy, is dropped); switching to a non-NoBoard type never
touches the selections. -/
theorem c3_handleBoardChange (config : TripConfig) (sels : DailySelectionsState)
    (tripDates : List String) (code : BoardCode) :
    (code = config.boardType →
      handleBoardChange config sels tripDates code = (config, sels)) ∧
    (code ≠ config.boardType → code = .NB →
      (handleBoardChange config sels tripDates code).1 =
          updateBoardType config code ∧
      ∀ d ∈ tripDates,
        objGet (handleBoardChange config sels tripDates code).2 d =
          (objGet sels d).map clearRec) ∧
    (∀ r, (clearRec r).lunchId = none ∧ (clearRec r).dinnerId = none ∧
      (truthy r.hotelId = true → (clearRec r).hotelId = r.hotelId)) ∧
    (code ≠ config.boardType → code ≠ .NB →
      (handleBoardChange config sels tripDates code).2 = sels) := by
  refine ⟨?_, ?_, ?_, ?_⟩
  · intro h
    unfold handleBoardChange
    rw [if_pos h]
  · intro hne hnb
    subst hnb
    unfold handleBoardChange
    rw [if_neg hne]
    dsimp only
    rw [if_pos rfl]
    refine ⟨rfl, ?_⟩
    intro d hd
    show objGet (clearMeals sels tripDates) d = _
    rw [objGet_clearMeals, if_pos hd]
  · intro r
    unfold clearRec
    by_cases h : truthy r.hotelId = true
    · rw [if_pos h]
      exact ⟨rfl, rfl, fun _ => rfl⟩
    · rw [if_neg h]
      exact ⟨rfl, rfl, fun hc => absurd hc h⟩
  · intro hne hnb
    unfold handleBoardChange
    rw [if_neg hne]
    dsimp only
    rw [if_neg hnb]

/-- Witness for C3: switching FullBoard→NoBoard clears the meals of the one
current date while keeping its (truthy) hotel id, and FullBoard→FullBoard
leaves everything unchanged. -/
theorem c3_witness :
    (BoardCode.NB ≠ BoardCode.FB ∧
      objGet (handleBoardChange ⟨"", "2024-03-01", 2, "Italy", .FB⟩
          [("2024-03-01", ⟨some 7, some 1, some 2⟩)] ["2024-03-01"] .NB).2
          "2024-03-01" =
        (objGet [("2024-03-01", ⟨some 7, some 1, some 2⟩)] "2024-03-01").map
          clearRec) ∧
    handleBoardChange ⟨"", "2024-03-01", 2, "Italy", .FB⟩
        [("2024-03-01", ⟨some 7, some 1, some 2⟩)] ["2024-03-01"] .FB =
      (⟨"", "2024-03-01", 2, "Italy", .FB⟩,
        [("2024-03-01", ⟨some 7, some 1, some 2⟩)]) :=
  ⟨⟨by decide,
    ((c3_handleBoardChange ⟨"", "2024-03-01", 2, "Italy", .FB⟩
        [("2024-03-01", ⟨some 7, some 1, some 2⟩)] ["2024-03-01"] .NB).2.1
      (by decide) rfl).2 "2024-03-01" (by decide)⟩,
   (c3_handleBoardChange ⟨"", "2024-03-01", 2, "Italy", .FB⟩
        [("2024-03-01", ⟨some 7, some 1, some 2⟩)] ["2024-03-01"] .FB).1 rfl⟩

/-- C4 counterexample: the claim fails as stated.  Under HalfBoard, setting
lunch to the defined mealId `0` on a date whose dinner is set does not
clear dinner: the cross-clearing dispatch is guarded by `if (mealId && ...)`
(truthiness), and `updateMeal` treats `0` as a clear of the edited field. -/
theorem c4_counterexample :
    handleMealChange .HB [("2024-03-01", ⟨none, none, some 5⟩)] "2024-03-01"
        .lunchId (some 0) = [("2024-03-01", ⟨none, none, some 5⟩)] ∧
    getField ((objGet (handleMealChange .HB
          [("2024-03-01", ⟨none, none, some 5⟩)] "2024-03-01" .lunchId
          (some 0)) "2024-03-01").getD emptySelection)
        (otherField .lunchId) = some 5 := by
  constructor
  · decide
  · decide

/-- C4 (amended): under HalfBoard, setting a meal field to a defined
NONZERO mealId forces the other meal field to undefined in the same logical
update; for every mealId (including `0` and `undefined`) the edited date's
record afterwards has at most one of lunch/dinner populated; under
FullBoard the handler is exactly `updateMeal`, which never touches the
other meal field, so both fields can be set independently. -/
theorem c4_halfBoard_exclusive (s : DailySelectionsState) (d : String)
    (f : MealField) (k : Int) (hk : k ≠ 0) :
    (objGet (handleMealChange .HB s d f (some k)) d =
      some (setField (setField ((objGet s d).getD emptySelection) f (some k))
        (otherField f) none)) ∧
    (∀ m : Option Int,
      getField ((objGet (handleMealChange .HB s d f m) d).getD
        emptySelection) .lunchId = none ∨
      getField ((objGet (handleMealChange .HB s d f m) d).getD
        emptySelection) .dinnerId = none) ∧
    (∀ m : Option Int,
      handleMealChange .FB s d f m = updateMeal s d f m ∧
      getField ((objGet (updateMeal s d f m) d).getD emptySelection)
          (otherField f) =
        getField ((objGet s d).getD emptySelection) (otherField f)) := by
  have htk : truthy (some k) = true := by
    unfold truthy
    simp [hk]
  refine ⟨?_, ?_, ?_⟩
  · unfold handleMealChange
    rw [if_neg (by decide)]
    dsimp only
    rw [if_pos ⟨htk, rfl⟩, objGet_updateMeal_self, objGet_updateMeal_self]
    rw [if_pos htk, if_neg (by decide)]
    rfl
  · intro m
    unfold handleMealChange
    rw [if_neg (by decide)]
    dsimp only
    by_cases hm : truthy m = true
    · rw [if_pos ⟨hm, rfl⟩, objGet_updateMeal_self]
      cases f
      · right
        rw [Option.getD_some]
        rw [show otherField MealField.lunchId = MealField.dinnerId from rfl,
          getField_setField_same]
        rw [if_neg (by decide)]
      · left
        rw [Option.getD_some]
        rw [show otherField MealField.dinnerId = MealField.lunchId from rfl,
          getField_setField_same]
        rw [if_neg (by decide)]
    · rw [if_neg (fun hc => hm hc.1), objGet_updateMeal_self, if_neg hm]
      cases f
      · left
        rw [Option.getD_some, getField_setField_same]
      · right
        rw [Option.getD_some, getField_setField_same]
  · intro m
    constructor
    · unfold handleMealChange
      rw [if_neg (by decide)]
      dsimp only
      rw [if_neg (fun hc => BoardCode.noConfusion hc.2)]
    · rw [objGet_updateMeal_self, Option.getD_some, getField_setField_other]

/-- Witness for C4: under HalfBoard, setting lunch to 7 on a date whose
dinner is 5 clears the dinner in the same update. -/
theorem c4_witness :
    (7 : Int) ≠ 0 ∧
    objGet (handleMealChange .HB [("2024-03-01", ⟨none, none, some 5⟩)]
        "2024-03-01" .lunchId (some 7)) "2024-03-01" =
      some (setField (setField ((objGet
          [("2024-03-01", ⟨none, none, some 5⟩)] "2024-03-01").getD
          emptySelection) .lunchId (some 7)) (otherField .lunchId) none) :=
  ⟨by decide,
   (c4_halfBoard_exclusive [("2024-03-01", ⟨none, none, some 5⟩)]
      "2024-03-01" .lunchId 7 (by decide)).1⟩

/-- C5 counterexample: the claim fails as stated.  `Number('-3') = -3` is
truthy, so `Number(value) || 1` does not fall back and the reducer stores
`-3`, a value below 1 (the `min={1}` input attribute does not prevent
typing a negative number). -/
theorem c5_counterexample :
    (updateDaysFromInput ⟨"", "2024-03-01", 3, "Italy", .FB⟩
        (some (-3))).days = -3 ∧
    (updateDaysFromInput ⟨"", "2024-03-01", 3, "Italy", .FB⟩
        (some (-3))).days < 1 := by
  constructor
  · decide
  · decide

/-- C5 (amended): the days update falls back to 1 exactly when the coerced
input is NaN or 0 (the falsy numbers); every other numeric value —
including negative and fractional ones — is stored unchanged, so the
stored days field is NOT guaranteed to be an integer at least 1. -/
theorem c5_updateDays (c : TripConfig) (value : Option ℚ) :
    (value = none → (updateDaysFromInput c value).days = 1) ∧
    (value = some 0 → (updateDaysFromInput c value).days = 1) ∧
    (∀ q : ℚ, q ≠ 0 → value = some q →
      (updateDaysFromInput c value).days = q) := by
  refine ⟨?_, ?_, ?_⟩
  · intro h
    subst h
    rfl
  · intro h
    subst h
    unfold updateDaysFromInput jsOrDefault
    dsimp only
    rw [if_pos rfl]
  · intro q hq h
    subst h
    unfold updateDaysFromInput jsOrDefault
    dsimp only
    rw [if_neg hq]

/-- Witness for C5: an unparseable input (NaN) coerces to 1, and the
fractional input `1/2` is stored as-is. -/
theorem c5_witness :
    (updateDaysFromInput ⟨"", "2024-03-01", 3, "Italy", .FB⟩ none).days = 1 ∧
    ((1 / 2 : ℚ) ≠ 0 ∧
      (updateDaysFromInput ⟨"", "2024-03-01", 3, "Italy", .FB⟩
        (some (1 / 2))).days = 1 / 2) :=
  ⟨(c5_updateDays ⟨"", "2024-03-01", 3, "Italy", .FB⟩ none).1 rfl,
   ⟨by norm_num,
    (c5_updateDays ⟨"", "2024-03-01", 3, "Italy", .FB⟩ (some (1 / 2))).2.2
      (1 / 2) (by norm_num) rfl⟩⟩

/-- C6: a meal edit attempted while the board type is NoBoard leaves the
selections state completely unchanged, for every prior state, date, field
and mealId (silently ignored; no error is possible since the handler is a
total function). -/
theorem c6_noBoard_suppression (s : DailySelectionsState) (d : String)
    (f : MealField) (m : Option Int) :
    handleMealChange .NB s d f m = s := by
  unfold handleMealChange
  rw [if_pos rfl]

/-- C10: `updateMeal` with `mealId = 0` behaves exactly like clearing — the
reducer branches on the falsiness of `mealId`, so the field is removed
rather than set to 0, and a catalog entry with id 0 can never be stored as
a selected meal. -/
theorem c10_updateMeal_zero (s : DailySelectionsState) (d : String)
    (f : MealField) :
    updateMeal s d f (some 0) = updateMeal s d f none ∧
    getField ((objGet (updateMeal s d f (some 0)) d).getD emptySelection)
      f = none := by
  constructor
  · unfold updateMeal
    rfl
  · rw [objGet_updateMeal_self, Option.getD_some, if_neg (by decide),
      getField_setField_same]

/-- C7: for every date sequence, selections state and catalog with
non-negative prices, each per-date subtotal equals
`hotelPrice + lunchPrice + dinnerPrice` where an unselected or
catalog-unresolved id contributes price 0 (and no error can arise, the
resolution being a total function), and the grand total equals the sum of
the per-day subtotals and is non-negative. -/
theorem c7_pricing (tripDates : List String) (sels : DailySelectionsState)
    (availableHotels : List CatalogEntry) (mealOptions : Option MealOptions)
    (hh : ∀ e ∈ availableHotels, 0 ≤ e.price)
    (hl : ∀ mo, mealOptions = some mo → ∀ e ∈ mo.lunch, 0 ≤ e.price)
    (hd : ∀ mo, mealOptions = some mo → ∀ e ∈ mo.dinner, 0 ≤ e.price) :
    (∀ b ∈ dailyBreakdown tripDates sels availableHotels mealOptions,
      b.subtotal = priceOf b.hotel + priceOf b.lunch + priceOf b.dinner) ∧
    (∀ (entries : List CatalogEntry) (sel : Option Int),
      (∀ e ∈ entries, some e.id ≠ sel) → priceOf (findById entries sel) = 0) ∧
    grandTotal (dailyBreakdown tripDates sels availableHotels mealOptions) =
      ((dailyBreakdown tripDates sels availableHotels mealOptions).map
        DayBreakdown.subtotal).sum ∧
    0 ≤ grandTotal (dailyBreakdown tripDates sels availableHotels mealOptions) := by
  refine ⟨?_, ?_, ?_, ?_⟩
  · intro b hb
    unfold dailyBreakdown at hb
    obtain ⟨date, hdate, rfl⟩ := List.mem_map.mp hb
    rfl
  · intro entries sel hne
    have hfind : entries.find? (fun e => some e.id == sel) = none := by
      rw [List.find?_eq_none]
      intro e he
      simp only [beq_iff_eq]
      exact hne e he
    unfold priceOf findById
    rw [hfind]
    rfl
  · unfold grandTotal
    rw [foldl_add_subtotal, zero_add]
  · unfold grandTotal
    rw [foldl_add_subtotal, zero_add]
    apply List.sum_nonneg
    intro x hx
    obtain ⟨b, hb, rfl⟩ := List.mem_map.mp hx
    unfold dailyBreakdown at hb
    obtain ⟨date, hdate, rfl⟩ := List.mem_map.mp hb
    dsimp only
    have h1 : (0 : ℚ) ≤ priceOf (findById availableHotels
        ((objGet sels date).getD emptySelection).hotelId) :=
      priceOf_findById_nonneg hh _
    have h2 : (0 : ℚ) ≤ priceOf (mealOptions.bind (fun mo =>
        findById mo.lunch ((objGet sels date).getD emptySelection).lunchId)) := by
      cases mealOptions with
      | none => simp [priceOf]
      | some mo => exact priceOf_findById_nonneg (hl mo rfl) _
    have h3 : (0 : ℚ) ≤ priceOf (mealOptions.bind (fun mo =>
        findById mo.dinner ((objGet sels date).getD emptySelection).dinnerId)) := by
      cases mealOptions with
      | none => simp [priceOf]
      | some mo => exact priceOf_findById_nonneg (hd mo rfl) _
    exact add_nonneg (add_nonneg h1 h2) h3

/-- Witness for C7: one day with hotel id 1 (price 100), lunch id 2
(price 20) and a stale dinner id 9 absent from the catalog: the subtotal
and grand total are 120, the sum formula holds and the total is
non-negative. -/
theorem c7_witness :
    (∀ e ∈ [({ id := 1, name := "H", price := 100 } : CatalogEntry)],
      0 ≤ e.price) ∧
    grandTotal (dailyBreakdown ["2024-03-01"]
        [("2024-03-01", ⟨some 1, some 2, some 9⟩)]
        [⟨1, "H", 100⟩] (some ⟨[⟨2, "L", 20⟩], []⟩)) =
      ((dailyBreakdown ["2024-03-01"]
        [("2024-03-01", ⟨some 1, some 2, some 9⟩)]
        [⟨1, "H", 100⟩] (some ⟨[⟨2, "L", 20⟩], []⟩)).map
          DayBreakdown.subtotal).sum ∧
    0 ≤ grandTotal (dailyBreakdown ["2024-03-01"]
        [("2024-03-01", ⟨some 1, some 2, some 9⟩)]
        [⟨1, "H", 100⟩] (some ⟨[⟨2, "L", 20⟩], []⟩)) ∧
    grandTotal (dailyBreakdown ["2024-03-01"]
        [("2024-03-01", ⟨some 1, some 2, some 9⟩)]
        [⟨1, "H", 100⟩] (some ⟨[⟨2, "L", 20⟩], []⟩)) = 120 :=
  ⟨by decide,
   (c7_pricing ["2024-03-01"] [("2024-03-01", ⟨some 1, some 2, some 9⟩)]
      [⟨1, "H", 100⟩] (some ⟨[⟨2, "L", 20⟩], []⟩) (by decide)
      (by intro mo h; injection h with h2; subst h2; decide)
      (by intro mo h; injection h with h2; subst h2; decide)).2.2.1,
   (c7_pricing ["2024-03-01"] [("2024-03-01", ⟨some 1, some 2, some 9⟩)]
      [⟨1, "H", 100⟩] (some ⟨[⟨2, "L", 20⟩], []⟩) (by decide)
      (by intro mo h; injection h with h2; subst h2; decide)
      (by intro mo h; injection h with h2; subst h2; decide)).2.2.2,
   by
    simp [grandTotal, dailyBreakdown, priceOf, findById, objGet, emptySelection]
    norm_num⟩
